import Mathlib

/-!
Shallow embedding of the SurreyCodes hubot meetup announcer.

Two source variants are embedded:
* `src/unnamed/part_000` (the commented variant with the on-demand command
  handler), in namespace `Meetup`;
* `src/scripts/meetup.js`, in namespace `MeetupJs`.

Events, chat messages and the mutable instance state (`redis` connection flag,
persisted watermark key `events:last-announced`, in-memory `lastAnnounced`)
are modelled explicitly; the HTTP fetch is modelled as an `Except` input to
each cycle (error = transport failure or a `JSON.parse` throw).
-/

/-- Venue record of an event from the meetup API (`venue.name`,
`venue.address_1`, `venue.city`). -/
structure Venue where
  name : String
  address_1 : String
  city : String
deriving DecidableEq

/-- Event record parsed from the meetup API response body.  `time` is epoch
milliseconds, `status` is the raw status string. -/
structure Event where
  name : String
  time : Int
  venue : Venue
  link : String
  status : String
deriving DecidableEq

/-- Runtime values the `lastAnnounced` instance property can take in either
variant: `undef` before the redis GET callback runs (or forever, when redis is
absent), a number after `parseInt`, or a whole event object (the
`src/scripts/meetup.js` save callback assigns `events[events.length - 1]`
itself). -/
inductive JSVal where
  | undef : JSVal
  | num : Int → JSVal
  | obj : Event → JSVal
deriving DecidableEq

/-- Semantics of the JavaScript comparison `ev.time > this.lastAnnounced`:
number against number compares numerically; number against `undefined` or
against a plain object is a NaN comparison and yields `false`. -/
def jsGtTime (t : Int) : JSVal → Bool
  | JSVal.num n => decide (n < t)
  | JSVal.undef => false
  | JSVal.obj _ => false

/-- One field of a Slack attachment (`{title, value, short}`); the variant in
`src/scripts/meetup.js` omits `short` on the When field, hence `Option`. -/
structure MsgField where
  title : String
  value : String
  short : Option Bool
deriving DecidableEq

/-- Slack attachment: fields, thumbnail URL and footer. -/
structure Attachment where
  fields : List MsgField
  thumb_url : String
  footer : String
deriving DecidableEq

/-- Outbound chat message: text plus attachments. -/
structure Message where
  text : String
  attachments : List Attachment
deriving DecidableEq

/-- Days since 1970-01-01 of a proleptic-Gregorian civil date (Howard
Hinnant's `days_from_civil`), used to model the `moment-timezone` library's
America/Vancouver conversion. -/
def daysFromCivil (y m d : Int) : Int :=
  let yAdj := if m ≤ 2 then y - 1 else y
  let era := yAdj.ediv 400
  let yoe := yAdj - era * 400
  let mp := if 2 < m then m - 3 else m + 9
  let doy := (153 * mp + 2).ediv 5 + d - 1
  let doe := yoe * 365 + yoe.ediv 4 - yoe.ediv 100 + doy
  era * 146097 + doe - 719468

/-- Civil year containing the day `z` (days since 1970-01-01); the year
component of Hinnant's `civil_from_days`. -/
def yearOfDays (z : Int) : Int :=
  let z2 := z + 719468
  let era := z2.ediv 146097
  let doe := z2 - era * 146097
  let yoe := (doe - doe.ediv 1460 + doe.ediv 36524 - doe.ediv 146096).ediv 365
  let y := yoe + era * 400
  let doy := doe - (365 * yoe + yoe.ediv 4 - yoe.ediv 100)
  let mp := (5 * doy + 2).ediv 153
  if mp < 10 then y else y + 1

/-- UTC offset of America/Vancouver in milliseconds at UTC instant `t`
(epoch ms), modelling `moment-timezone`: UTC-7 from the second Sunday of
March 02:00 local standard time (10:00 UTC) to the first Sunday of November
02:00 local daylight time (09:00 UTC), UTC-8 otherwise. -/
def vancouverOffsetMs (t : Int) : Int :=
  let y := yearOfDays (t.ediv 86400000)
  let marFirst := daysFromCivil y 3 1
  let marDow := (marFirst + 4).emod 7
  let dstStartDay := daysFromCivil y 3 (1 + (7 - marDow).emod 7 + 7)
  let novFirst := daysFromCivil y 11 1
  let novDow := (novFirst + 4).emod 7
  let dstEndDay := daysFromCivil y 11 (1 + (7 - novDow).emod 7)
  let dstStart := dstStartDay * 86400000 + 10 * 3600000
  let dstEnd := dstEndDay * 86400000 + 9 * 3600000
  if dstStart ≤ t ∧ t < dstEnd then -25200000 else -28800000

/-- The moment format string `'h:ma'` applied to a local time given in
milliseconds: `h` is the 1-12 hour without padding, `m` the minute 0-59
without padding, `a` is `am`/`pm`. -/
def momentFormatHMA (localMs : Int) : String :=
  let msOfDay := localMs.emod 86400000
  let hour := msOfDay.ediv 3600000
  let minute := (msOfDay.ediv 60000).emod 60
  let h12 := if hour.emod 12 = 0 then (12 : Int) else hour.emod 12
  let mer := if hour < 12 then "am" else "pm"
  toString h12.toNat ++ ":" ++ toString minute.toNat ++ mer

/-- Value of the When field:
`moment(new Date(ev.time).toISOString()).tz('America/Vancouver').format('h:ma')`. -/
def whenValue (t : Int) : String := momentFormatHMA (t + vancouverOffsetMs t)

/-- Value of the Where field:
`` `${ev.venue.name}\n${ev.venue.address_1}, ${ev.venue.city}` ``. -/
def whereValue (v : Venue) : String :=
  v.name ++ "\n" ++ v.address_1 ++ ", " ++ v.city

/-- Fixed decorative thumbnail URL used by both variants. -/
def meetupThumb : String :=
  "https://secure.meetupstatic.com/s/img/422066906568/logo/swarm/m_swarm_128x128.png"

/-- Message built from one event in `src/unnamed/part_000`
(`Meetup.announceEvents`): both fields carry `short: true`. -/
def formatMessage (ev : Event) : Message :=
  { text := ev.name
    attachments :=
      [{ fields :=
           [{ title := "Where", value := whereValue ev.venue, short := some true }
            , { title := "When", value := whenValue ev.time, short := some true }]
         thumb_url := meetupThumb
         footer := ev.link }] }

/-- Message built from one event in `src/scripts/meetup.js`: identical except
that the When field has no `short` property. -/
def formatMessageJs (ev : Event) : Message :=
  { text := ev.name
    attachments :=
      [{ fields :=
           [{ title := "Where", value := whereValue ev.venue, short := some true }
            , { title := "When", value := whenValue ev.time, short := none }]
         thumb_url := meetupThumb
         footer := ev.link }] }

/-- Read the footer of a message back out of its first attachment. -/
def messageFooter (m : Message) : Option String :=
  match m.attachments with
  | [] => none
  | a :: _ => some a.footer

/-- Read the value of the attachment field with the given title back out of a
message. -/
def messageFieldValue (title : String) (m : Message) : Option String :=
  match m.attachments with
  | [] => none
  | a :: _ => (a.fields.find? (fun f => f.title == title)).map (fun f => f.value)

/-- Stable insertion of an event into a list already sorted ascending by
`time`; `insertByTime e l` puts `e` after every element whose time is `≤`
its own. -/
def insertByTime (e : Event) : List Event → List Event
  | [] => [e]
  | f :: rest => if e.time < f.time then e :: f :: rest else f :: insertByTime e rest

/-- The stable ascending sort by `time` performed by
`events.sort((a, b) => a.time > b.time)`: the boolean comparator coerces to
1 when `a.time > b.time` and 0 otherwise, so under the runtime's stable sort
elements are reordered exactly when a strictly greater time precedes a
smaller one, yielding the stable ascending order modelled here. -/
def sortByTime : List Event → List Event
  | [] => []
  | e :: rest => insertByTime e (sortByTime rest)

/-- The `getUpcomingMeetups` helper of `src/unnamed/part_000`, applied to the
parsed response body: keep only `status === 'upcoming'`, then sort ascending
by time.  Transport and parse failures are modelled at the call sites as an
`Except.error` fetch outcome. -/
def getUpcomingMeetups (parsed : List Event) : List Event :=
  sortByTime (parsed.filter (fun ev => ev.status == "upcoming"))

/-- Mutable state of a `Meetup` instance: whether a redis client exists, the
content of the persisted `events:last-announced` key, and the in-memory
`lastAnnounced` property. -/
structure State where
  redis : Bool
  store : Option Int
  lastAnnounced : JSVal
deriving DecidableEq

/-- Observable outcome of one scheduled cycle: the messages sent, the logger
lines emitted, and the state afterwards. -/
structure CycleOut where
  messages : List Message
  logs : List String
  state : State
deriving DecidableEq

/-- The in-memory watermark as a number (`0` when `lastAnnounced` is not a
number, matching the `parseInt(lastAnnounced || '0')` default). -/
def laNum (s : State) : Int :=
  match s.lastAnnounced with
  | JSVal.num n => n
  | _ => 0

/-- The persisted watermark as a number, `0` when the key is absent. -/
def storeVal (s : State) : Int := s.store.getD 0

namespace Meetup

/-- The `announceEvents(events, sender)` method of `src/unnamed/part_000`:
every event is formatted and sent; then, if a redis client exists and the
list is non-empty, the key `events:last-announced` is SET to the last
event's time and `lastAnnounced` is assigned that same number.  This runs
on the command path and on the scheduled path alike. -/
def announceEvents (events : List Event) (s : State) : List Message × State :=
  match events.getLast? with
  | some last =>
    if s.redis then
      (events.map formatMessage,
       { s with store := some last.time, lastAnnounced := JSVal.num last.time })
    else (events.map formatMessage, s)
  | none => (events.map formatMessage, s)

/-- The `cmdShowUpcoming(resp)` command handler: fetch, then announce every
upcoming event back to the requester.  The promise chain has no catch, so a
fetch failure produces nothing. -/
def cmdShowUpcoming (fetch : Except String (List Event)) (s : State) :
    List Message × State :=
  match fetch with
  | Except.ok parsed => announceEvents (getUpcomingMeetups parsed) s
  | Except.error _ => ([], s)

/-- The timer callback `checkForAndAnnounceNewMeetups()`: fetch, filter by
`ev.time > this.lastAnnounced`, log the count, stop if empty, otherwise
announce to the configured channel.  A rejected fetch promise is unhandled
(no catch): nothing runs and nothing is logged. -/
def checkForAndAnnounceNewMeetups (fetch : Except String (List Event))
    (s : State) : CycleOut :=
  match fetch with
  | Except.error _ => { messages := [], logs := [], state := s }
  | Except.ok parsed =>
    let events := getUpcomingMeetups parsed
    let unannounced := events.filter (fun ev => jsGtTime ev.time s.lastAnnounced)
    let l1 := toString unannounced.length ++ " unannounced meetups found"
    if unannounced.isEmpty then { messages := [], logs := [l1], state := s }
    else
      let r := announceEvents unannounced s
      { messages := r.1
        logs := [l1, "Notifying channel of " ++ toString unannounced.length ++
                      " unannounced events"]
        state := r.2 }

/-- Consecutive timer ticks: each element of the list is the fetch outcome of
one scheduled cycle; returns the per-cycle message batches and final state. -/
def runCycles : List (Except String (List Event)) → State →
    List (List Message) × State
  | [], s => ([], s)
  | f :: rest, s =>
    let out := checkForAndAnnounceNewMeetups f s
    let r := runCycles rest out.state
    (out.messages :: r.1, r.2)

/-- States visited along a sequence of scheduled cycles, starting state
included. -/
def statesTrace : List (Except String (List Event)) → State → List State
  | [], s => [s]
  | f :: rest, s => s :: statesTrace rest (checkForAndAnnounceNewMeetups f s).state

/-- Startup configuration: whether `REDIS_URL` is set, whether
`Redis.createClient` succeeds, the current content of the watermark key, and
the `HUBOT_MEETUP_NOTIFICATION_CHANNEL` value. -/
structure Env where
  hasRedisUrl : Bool
  createClientOk : Bool
  storedValue : Option Int
  notificationChannel : Option String

/-- Models the `initialize()` method of `src/unnamed/part_000`: a redis
client exists iff the URL is set and client creation succeeds; if so
`lastAnnounced` is loaded as `parseInt(stored || '0')`, otherwise it stays
`undefined`.  The returned Boolean records whether `setInterval` was called,
i.e. whether scheduled cycles will run: the source guards it only on the
notification channel, not on redis. -/
def initState (env : Env) : State × Bool :=
  let r := env.hasRedisUrl && env.createClientOk
  ({ redis := r
     store := env.storedValue
     lastAnnounced := if r then JSVal.num (env.storedValue.getD 0) else JSVal.undef },
   env.notificationChannel.isSome)

end Meetup

namespace MeetupJs

/-- The `_checkForAndAnnounceNewMeetups()` method of `src/scripts/meetup.js`:
parse the body (no status filter), stop if the raw array is empty, otherwise
filter by `ev.time > this.lastAnnounced`, sort, send each message; then
unconditionally SET the watermark key to the time of the last element of the
RAW array and assign `this.lastAnnounced` that last event OBJECT.  With no
redis client the trailing `this.redis.set` throws a TypeError after the
messages were already sent, leaving the state unchanged (modelled by the
`false` branch).  A transport error leaves `events` undefined and
`JSON.parse` throws, so nothing observable happens (`Except.error`). -/
def checkForAndAnnounceNewMeetups (fetch : Except String (List Event))
    (s : State) : CycleOut :=
  match fetch with
  | Except.error _ => { messages := [], logs := [], state := s }
  | Except.ok events =>
    match events.getLast? with
    | none => { messages := [], logs := [], state := s }
    | some last =>
      let toSend := sortByTime (events.filter (fun ev => jsGtTime ev.time s.lastAnnounced))
      let msgs := toSend.map formatMessageJs
      let lg := ["Notifying channel of " ++ toString events.length ++ " new events"]
      if s.redis then
        { messages := msgs, logs := lg
          state := { s with store := some last.time, lastAnnounced := JSVal.obj last } }
      else { messages := msgs, logs := lg, state := s }

/-- Consecutive timer ticks of the `src/scripts/meetup.js` variant. -/
def runCycles : List (Except String (List Event)) → State →
    List (List Message) × State
  | [], s => ([], s)
  | f :: rest, s =>
    let out := checkForAndAnnounceNewMeetups f s
    let r := runCycles rest out.state
    (out.messages :: r.1, r.2)

end MeetupJs

/-- Lower-cased character list of a string, modelling the case folding of a
`/.../i` regular expression. -/
def lowerChars (s : String) : List Char := s.toList.map Char.toLower

/-- The characters of the registered command pattern
`/show upcoming meetups/i` from the `Meetup` constructor. -/
def meetupCommandChars : List Char := ("show upcoming meetups").toList

/-- Check whether the second list starts with the first. -/
def listStartsWith : List Char → List Char → Bool
  | [], _ => true
  | _ :: _, [] => false
  | p :: ps, c :: cs => p == c && listStartsWith ps cs

/-- Check whether the first list occurs contiguously inside the second. -/
def listContains (pat : List Char) : List Char → Bool
  | [] => pat.isEmpty
  | c :: cs => listStartsWith pat (c :: cs) || listContains pat cs

/-- Whether the unanchored case-insensitive pattern the constructor registers
with `hubot.respond` matches a message body. -/
def respondMatches (s : String) : Bool :=
  listContains meetupCommandChars (lowerChars s)

/-- Sample venue used by concrete test events. -/
def venueA : Venue := { name := "Hall", address_1 := "1 Main St", city := "Surrey" }

/-- Build a concrete upcoming event with the given name and time. -/
def mkEvent (nm : String) (t : Int) : Event :=
  { name := nm, time := t, venue := venueA
    link := "https://meetup.example/" ++ nm, status := "upcoming" }

/-- Concrete event at epoch ms 50. -/
def evT50 : Event := mkEvent ("E50") 50

/-- Concrete event at epoch ms 100. -/
def evT100 : Event := mkEvent ("E100") 100

/-- Concrete event at epoch ms 1000. -/
def evT1000 : Event := mkEvent ("E1000") 1000

/-- Concrete event at epoch ms 2000. -/
def evT2000 : Event := mkEvent ("E2000") 2000

/-- Concrete event at the epoch of 2024-01-01T19:00:00-08:00. -/
def evJan : Event := mkEvent ("JanMeetup") 1704164400000

/-! ### Helper lemmas about the sort and list utilities -/

theorem mem_insertByTime {e a : Event} : ∀ {l : List Event},
    a ∈ insertByTime e l ↔ a = e ∨ a ∈ l := by
  intro l
  induction l with
  | nil => simp [insertByTime]
  | cons f rest ih =>
    simp only [insertByTime]
    split
    · simp [or_comm, or_assoc, or_left_comm]
    · simp [ih]
      tauto

theorem sorted_insertByTime {e : Event} : ∀ {l : List Event},
    List.Sorted (fun a b : Event => a.time ≤ b.time) l →
    List.Sorted (fun a b : Event => a.time ≤ b.time) (insertByTime e l) := by
  intro l
  induction l with
  | nil => intro _; simp [insertByTime]
  | cons f rest ih =>
    intro h
    rw [List.sorted_cons] at h
    simp only [insertByTime]
    split
    · rename_i hlt
      rw [List.sorted_cons]
      refine ⟨?_, by rw [List.sorted_cons]; exact h⟩
      intro b hb
      rcases List.mem_cons.1 hb with rfl | hb
      · exact le_of_lt hlt
      · exact le_trans (le_of_lt hlt) (h.1 b hb)
    · rename_i hge
      rw [List.sorted_cons]
      refine ⟨?_, ih h.2⟩
      intro b hb
      rcases mem_insertByTime.1 hb with rfl | hb
      · exact le_of_not_lt hge
      · exact h.1 b hb

theorem mem_sortByTime {a : Event} : ∀ {l : List Event},
    a ∈ sortByTime l ↔ a ∈ l := by
  intro l
  induction l with
  | nil => simp [sortByTime]
  | cons e rest ih => simp [sortByTime, mem_insertByTime, ih]

theorem sorted_sortByTime : ∀ (l : List Event),
    List.Sorted (fun a b : Event => a.time ≤ b.time) (sortByTime l) := by
  intro l
  induction l with
  | nil => simp [sortByTime]
  | cons e rest ih => exact sorted_insertByTime ih

theorem mem_of_getLastSome : ∀ {l : List Event} {a : Event},
    l.getLast? = some a → a ∈ l := by
  intro l
  induction l with
  | nil => intro a h; simp [List.getLast?] at h
  | cons e rest ih =>
    intro a h
    cases rest with
    | nil =>
      simp only [List.getLast?_singleton, Option.some.injEq] at h
      simp [h]
    | cons f rest' =>
      rw [List.getLast?_cons_cons] at h
      exact List.mem_cons_of_mem _ (ih h)

theorem time_le_getLast : ∀ {l : List Event},
    List.Sorted (fun a b : Event => a.time ≤ b.time) l →
    ∀ {e last : Event}, e ∈ l → l.getLast? = some last → e.time ≤ last.time := by
  intro l
  induction l with
  | nil => intro _ e last he; simp at he
  | cons a rest ih =>
    intro h e last he hl
    rw [List.sorted_cons] at h
    cases rest with
    | nil =>
      simp only [List.getLast?_singleton, Option.some.injEq] at hl
      rcases List.mem_singleton.1 he with rfl
      rw [hl]
    | cons b rest' =>
      rw [List.getLast?_cons_cons] at hl
      rcases List.mem_cons.1 he with rfl | he'
      · exact le_trans (h.1 last (mem_of_getLastSome hl)) (le_refl _)
      · exact ih h.2 he' hl

theorem exists_getLast_of_ne_nil : ∀ {l : List Event}, l ≠ [] →
    ∃ a, l.getLast? = some a := by
  intro l
  induction l with
  | nil => intro h; exact absurd rfl h
  | cons e rest ih =>
    intro _
    cases rest with
    | nil => exact ⟨e, rfl⟩
    | cons f rest' =>
      rcases ih (by simp) with ⟨a, ha⟩
      exact ⟨a, by rw [List.getLast?_cons_cons]; exact ha⟩

theorem filter_jsGt_undef : ∀ (l : List Event),
    l.filter (fun ev => jsGtTime ev.time JSVal.undef) = [] := by
  intro l
  induction l with
  | nil => rfl
  | cons e rest ih => simp [List.filter, jsGtTime, ih]

theorem filter_jsGt_obj (x : Event) : ∀ (l : List Event),
    l.filter (fun ev => jsGtTime ev.time (JSVal.obj x)) = [] := by
  intro l
  induction l with
  | nil => rfl
  | cons e rest ih => simp [List.filter, jsGtTime, ih]

theorem getLast?_append_singleton : ∀ (l : List Event) (a : Event),
    (l ++ [a]).getLast? = some a := by
  intro l a
  simp [List.getLast?_concat]

theorem announceEvents_fst (events : List Event) (s : State) :
    (Meetup.announceEvents events s).1 = events.map formatMessage := by
  simp only [Meetup.announceEvents]
  cases h : events.getLast? <;> cases hr : s.redis <;> simp [h, hr]

theorem announceEvents_snd_noredis (events : List Event) (s : State)
    (hr : s.redis = false) : (Meetup.announceEvents events s).2 = s := by
  simp only [Meetup.announceEvents]
  cases h : events.getLast? <;> simp [h, hr]

theorem announceEvents_snd_some (events : List Event) (s : State) (last : Event)
    (hr : s.redis = true) (hl : events.getLast? = some last) :
    (Meetup.announceEvents events s).2
      = { s with store := some last.time, lastAnnounced := JSVal.num last.time } := by
  simp only [Meetup.announceEvents, hl, hr]
  simp

theorem meetup_cycle_ok_messages (s : State) (parsed : List Event) :
    (Meetup.checkForAndAnnounceNewMeetups (Except.ok parsed) s).messages
      = ((getUpcomingMeetups parsed).filter
          (fun ev => jsGtTime ev.time s.lastAnnounced)).map formatMessage := by
  simp only [Meetup.checkForAndAnnounceNewMeetups]
  cases hu : (getUpcomingMeetups parsed).filter (fun ev => jsGtTime ev.time s.lastAnnounced) with
  | nil => simp [hu]
  | cons a l => simp [hu, announceEvents_fst]

theorem meetup_cycle_ok_state_nil (s : State) (parsed : List Event)
    (h : (getUpcomingMeetups parsed).filter (fun ev => jsGtTime ev.time s.lastAnnounced) = []) :
    (Meetup.checkForAndAnnounceNewMeetups (Except.ok parsed) s).state = s := by
  simp only [Meetup.checkForAndAnnounceNewMeetups]
  simp [h]

theorem meetup_cycle_ok_state_cons (s : State) (parsed : List Event) (a : Event)
    (l : List Event)
    (h : (getUpcomingMeetups parsed).filter (fun ev => jsGtTime ev.time s.lastAnnounced) = a :: l) :
    (Meetup.checkForAndAnnounceNewMeetups (Except.ok parsed) s).state
      = (Meetup.announceEvents (a :: l) s).2 := by
  simp only [Meetup.checkForAndAnnounceNewMeetups]
  simp [h]

theorem js_cycle_ok_messages (events : List Event) (s : State) :
    (MeetupJs.checkForAndAnnounceNewMeetups (Except.ok events) s).messages
      = (sortByTime (events.filter (fun ev => jsGtTime ev.time s.lastAnnounced))).map
          formatMessageJs := by
  cases events with
  | nil => rfl
  | cons a as =>
    rcases exists_getLast_of_ne_nil (l := a :: as) (by simp) with ⟨last, hl⟩
    simp only [MeetupJs.checkForAndAnnounceNewMeetups, hl]
    cases hr : s.redis <;> simp [hr]

theorem js_cycle_ok_state_some (events : List Event) (s : State) (last : Event)
    (hr : s.redis = true) (hl : events.getLast? = some last) :
    (MeetupJs.checkForAndAnnounceNewMeetups (Except.ok events) s).state
      = { s with store := some last.time, lastAnnounced := JSVal.obj last } := by
  cases events with
  | nil => simp at hl
  | cons a as =>
    simp only [MeetupJs.checkForAndAnnounceNewMeetups, hl, hr]
    simp

theorem listStartsWith_iff : ∀ (p l : List Char),
    listStartsWith p l = true ↔ ∃ t, p ++ t = l := by
  intro p
  induction p with
  | nil => intro l; simp [listStartsWith]
  | cons c cs ih =>
    intro l
    cases l with
    | nil => simp [listStartsWith]
    | cons d ds =>
      simp only [listStartsWith, Bool.and_eq_true, beq_iff_eq, ih, List.cons_append,
        List.cons.injEq]
      constructor
      · rintro ⟨rfl, t, rfl⟩
        exact ⟨t, rfl, rfl⟩
      · rintro ⟨t, rfl, rfl⟩
        exact ⟨rfl, t, rfl⟩

theorem listContains_iff : ∀ (p l : List Char),
    listContains p l = true ↔ ∃ pre post, pre ++ p ++ post = l := by
  intro p l
  induction l with
  | nil =>
    simp only [listContains, List.isEmpty_iff]
    constructor
    · rintro rfl
      exact ⟨[], [], rfl⟩
    · rintro ⟨pre, post, h⟩
      rcases List.append_eq_nil.1 h with ⟨h1, -⟩
      exact (List.append_eq_nil.1 h1).2
  | cons c cs ih =>
    simp only [listContains, Bool.or_eq_true, listStartsWith_iff, ih]
    constructor
    · rintro (⟨t, ht⟩ | ⟨pre, post, h⟩)
      · exact ⟨[], t, by simpa using ht⟩
      · refine ⟨c :: pre, post, ?_⟩
        simp [h]
    · rintro ⟨pre, post, h⟩
      cases pre with
      | nil => exact Or.inl ⟨post, by simpa using h⟩
      | cons x xs =>
        rw [List.cons_append, List.cons_append] at h
        injection h with h1 h2
        exact Or.inr ⟨xs, post, h2⟩

/-! ### Claim theorems -/

/-- C1 counterexample: with a redis client connected and watermark 0, one
on-demand `show upcoming meetups` invocation over a single fetched upcoming
event at time 100 rewrites the persisted watermark key, so the command path
does not leave the watermark store unchanged for every fetched event list
and store state. -/
theorem c1_counterexample :
    (Meetup.cmdShowUpcoming (Except.ok [mkEvent ("A") 100])
        ⟨true, some 0, JSVal.num 0⟩).2.store ≠ some 0 := by decide

/-- C1 (amended): the on-demand command path announces every fetched upcoming
event regardless of the watermark; it leaves the store and `lastAnnounced`
unchanged exactly when no redis client exists or the fetched upcoming list is
empty, and otherwise rewrites both to the time of the last (latest) fetched
event. -/
theorem c1_amended_command_watermark (store : Option Int) (la : JSVal)
    (parsed : List Event) :
    (Meetup.cmdShowUpcoming (Except.ok parsed) ⟨false, store, la⟩).2
        = ⟨false, store, la⟩
    ∧ (Meetup.cmdShowUpcoming (Except.ok parsed) ⟨false, store, la⟩).1
        = (getUpcomingMeetups parsed).map formatMessage
    ∧ (Meetup.cmdShowUpcoming (Except.ok parsed) ⟨true, store, la⟩).1
        = (getUpcomingMeetups parsed).map formatMessage
    ∧ (Meetup.cmdShowUpcoming (Except.ok parsed) ⟨true, store, la⟩).2
        = (match (getUpcomingMeetups parsed).getLast? with
           | none => (⟨true, store, la⟩ : State)
           | some last => ⟨true, some last.time, JSVal.num last.time⟩) := by
  refine ⟨?_, ?_, ?_, ?_⟩
  · exact announceEvents_snd_noredis _ _ rfl
  · exact announceEvents_fst _ _
  · exact announceEvents_fst _ _
  · cases h : (getUpcomingMeetups parsed).getLast? with
    | none =>
      simp only [Meetup.cmdShowUpcoming, Meetup.announceEvents, h]
    | some last =>
      simp only [Meetup.cmdShowUpcoming]
      rw [announceEvents_snd_some _ _ last rfl h]

/-- C2: for every numeric watermark `w` and every fetched event list, one
scheduled cycle announces exactly the events with `time > w`, in ascending
time order.  This holds for both variants: in `part_000` the fetched list is
the sorted upcoming-filtered adapter output, in `meetup.js` it is the raw
parsed array which the cycle filters and then sorts. -/
theorem c2_scheduled_announces_filter_sorted :
    (∀ (redis : Bool) (store : Option Int) (w : Int) (parsed : List Event),
      (Meetup.checkForAndAnnounceNewMeetups (Except.ok parsed)
          ⟨redis, store, JSVal.num w⟩).messages
        = ((getUpcomingMeetups parsed).filter
            (fun ev => jsGtTime ev.time (JSVal.num w))).map formatMessage
      ∧ (∀ e : Event,
          e ∈ (getUpcomingMeetups parsed).filter (fun ev => jsGtTime ev.time (JSVal.num w))
            ↔ (e ∈ getUpcomingMeetups parsed ∧ w < e.time))
      ∧ List.Sorted (fun a b : Event => a.time ≤ b.time)
          ((getUpcomingMeetups parsed).filter (fun ev => jsGtTime ev.time (JSVal.num w))))
    ∧ (∀ (redis : Bool) (store : Option Int) (w : Int) (events : List Event),
      (MeetupJs.checkForAndAnnounceNewMeetups (Except.ok events)
          ⟨redis, store, JSVal.num w⟩).messages
        = (sortByTime (events.filter (fun ev => jsGtTime ev.time (JSVal.num w)))).map
            formatMessageJs
      ∧ (∀ e : Event,
          e ∈ sortByTime (events.filter (fun ev => jsGtTime ev.time (JSVal.num w)))
            ↔ (e ∈ events ∧ w < e.time))
      ∧ List.Sorted (fun a b : Event => a.time ≤ b.time)
          (sortByTime (events.filter (fun ev => jsGtTime ev.time (JSVal.num w))))) := by
  constructor
  · intro redis store w parsed
    refine ⟨meetup_cycle_ok_messages _ _, ?_, ?_⟩
    · intro e
      simp [List.mem_filter, jsGtTime]
    · exact List.Pairwise.sublist (List.filter_sublist _) (sorted_sortByTime _)
  · intro redis store w events
    refine ⟨js_cycle_ok_messages _ _, ?_, sorted_sortByTime _⟩
    intro e
    simp [mem_sortByTime, List.mem_filter, jsGtTime]

/-- C3: after a scheduled `part_000` cycle whose announced subset is non-empty
(with a redis client, so the SET succeeds), both the persisted key and
`lastAnnounced` equal the time of the last announced event, which is the
maximum time over exactly the announced subset.  The `meetup.js` variant
violates this: at watermark 0 with raw fetch `[E2000, E1000]` it announces
both events (maximum time 2000) but persists the raw array's last element's
time 1000. -/
theorem c3_watermark_is_max_of_announced :
    (∀ (store : Option Int) (w : Int) (parsed : List Event) (last : Event),
      ((getUpcomingMeetups parsed).filter
          (fun ev => jsGtTime ev.time (JSVal.num w))).getLast? = some last →
      (Meetup.checkForAndAnnounceNewMeetups (Except.ok parsed)
          ⟨true, store, JSVal.num w⟩).state
        = ⟨true, some last.time, JSVal.num last.time⟩
      ∧ last ∈ (getUpcomingMeetups parsed).filter (fun ev => jsGtTime ev.time (JSVal.num w))
      ∧ (∀ e ∈ (getUpcomingMeetups parsed).filter (fun ev => jsGtTime ev.time (JSVal.num w)),
          e.time ≤ last.time))
    ∧ ((MeetupJs.checkForAndAnnounceNewMeetups (Except.ok [evT2000, evT1000])
          ⟨true, some 0, JSVal.num 0⟩).state.store = some 1000
       ∧ (MeetupJs.checkForAndAnnounceNewMeetups (Except.ok [evT2000, evT1000])
          ⟨true, some 0, JSVal.num 0⟩).messages
        = [formatMessageJs evT1000, formatMessageJs evT2000]) := by
  constructor
  · intro store w parsed last hl
    have hsorted : List.Sorted (fun a b : Event => a.time ≤ b.time)
        ((getUpcomingMeetups parsed).filter (fun ev => jsGtTime ev.time (JSVal.num w))) :=
      List.Pairwise.sublist (List.filter_sublist _) (sorted_sortByTime _)
    have hmem := mem_of_getLastSome hl
    refine ⟨?_, hmem, fun e he => time_le_getLast hsorted he hl⟩
    cases hu : (getUpcomingMeetups parsed).filter (fun ev => jsGtTime ev.time (JSVal.num w)) with
    | nil => rw [hu] at hl; simp at hl
    | cons a l =>
      rw [hu] at hl
      rw [meetup_cycle_ok_state_cons (⟨true, store, JSVal.num w⟩ : State) parsed a l hu,
        announceEvents_snd_some _ _ last rfl hl]
  · exact ⟨rfl, rfl⟩

/-- C3 witness: at watermark 0, concrete fetch `[E2000, E1000]` filters and
sorts to `[E1000, E2000]`, and the `part_000` cycle persists the maximum
time 2000. -/
theorem c3_witness :
    (Meetup.checkForAndAnnounceNewMeetups (Except.ok [evT2000, evT1000])
        ⟨true, some 0, JSVal.num 0⟩).state = ⟨true, some 2000, JSVal.num 2000⟩ :=
  (c3_watermark_is_max_of_announced.1 (some 0) 0 [evT2000, evT1000] evT2000 (by decide)).1

/-- C4: a `part_000` scheduled cycle whose filtered subset is empty sends no
messages and leaves the state (persisted watermark and `lastAnnounced`)
untouched.  The `meetup.js` variant violates the frame condition: with
watermark 100 and raw fetch `[E50]` the filtered subset is empty and nothing
is sent, yet the persisted watermark key is rewritten to 50. -/
theorem c4_empty_filter_no_side_effects :
    (∀ (s : State) (parsed : List Event),
      (getUpcomingMeetups parsed).filter (fun ev => jsGtTime ev.time s.lastAnnounced) = [] →
      (Meetup.checkForAndAnnounceNewMeetups (Except.ok parsed) s).messages = []
      ∧ (Meetup.checkForAndAnnounceNewMeetups (Except.ok parsed) s).state = s)
    ∧ (([evT50].filter (fun ev => jsGtTime ev.time (JSVal.num 100))) = []
       ∧ (MeetupJs.checkForAndAnnounceNewMeetups (Except.ok [evT50])
            ⟨true, some 100, JSVal.num 100⟩).messages = []
       ∧ (MeetupJs.checkForAndAnnounceNewMeetups (Except.ok [evT50])
            ⟨true, some 100, JSVal.num 100⟩).state.store = some 50) := by
  refine ⟨?_, by decide, rfl, rfl⟩
  intro s parsed h
  constructor
  · rw [meetup_cycle_ok_messages, h]
    rfl
  · exact meetup_cycle_ok_state_nil s parsed h

/-- C4 witness: with watermark 100 and fetch `[E50]` the `part_000` cycle
sends nothing and leaves the state unchanged. -/
theorem c4_witness :
    (Meetup.checkForAndAnnounceNewMeetups (Except.ok [evT50])
        ⟨true, some 100, JSVal.num 100⟩).messages = []
    ∧ (Meetup.checkForAndAnnounceNewMeetups (Except.ok [evT50])
        ⟨true, some 100, JSVal.num 100⟩).state = ⟨true, some 100, JSVal.num 100⟩ :=
  c4_empty_filter_no_side_effects.1 ⟨true, some 100, JSVal.num 100⟩ [evT50] (by decide)

/-- C5 counterexample: with no `REDIS_URL` (store unavailable) but a
notification channel configured, startup still installs the interval timer,
so scheduled cycles do run, contradicting the claim that they never run. -/
theorem c5_counterexample :
    (Meetup.initState ⟨false, true, none, some ("general")⟩).2 = true
    ∧ (Meetup.initState ⟨false, true, none, some ("general")⟩).1.redis = false :=
  ⟨rfl, rfl⟩

/-- C5 (amended): when the store is unavailable (no URL, or client creation
fails), the timer is still installed whenever a notification channel is
configured, and each scheduled cycle still runs — but it announces nothing
and leaves the state untouched, because every `ev.time > undefined` test is
false; the on-demand command path still fetches, formats and returns all
upcoming events with the state unchanged. -/
theorem c5_amended_degraded_mode (hasUrl createOk : Bool) (stored : Option Int)
    (channel : Option String) (parsed : List Event)
    (h : (hasUrl && createOk) = false) :
    (Meetup.initState ⟨hasUrl, createOk, stored, channel⟩).2 = channel.isSome
    ∧ (Meetup.initState ⟨hasUrl, createOk, stored, channel⟩).1
        = ⟨false, stored, JSVal.undef⟩
    ∧ (Meetup.checkForAndAnnounceNewMeetups (Except.ok parsed)
        ⟨false, stored, JSVal.undef⟩).messages = []
    ∧ (Meetup.checkForAndAnnounceNewMeetups (Except.ok parsed)
        ⟨false, stored, JSVal.undef⟩).state = ⟨false, stored, JSVal.undef⟩
    ∧ (Meetup.cmdShowUpcoming (Except.ok parsed) ⟨false, stored, JSVal.undef⟩).1
        = (getUpcomingMeetups parsed).map formatMessage
    ∧ (Meetup.cmdShowUpcoming (Except.ok parsed) ⟨false, stored, JSVal.undef⟩).2
        = ⟨false, stored, JSVal.undef⟩ := by
  refine ⟨rfl, ?_, ?_, ?_, announceEvents_fst _ _, announceEvents_snd_noredis _ _ rfl⟩
  · simp [Meetup.initState, h]
  · rw [meetup_cycle_ok_messages, filter_jsGt_undef]
    rfl
  · exact meetup_cycle_ok_state_nil _ parsed (filter_jsGt_undef _)

/-- C5 witness: concrete degraded startup (no store URL, channel `general`)
and a sample fetch of two events: the timer is installed, the cycle announces
nothing and changes nothing, and the command returns both formatted events. -/
theorem c5_witness :
    (Meetup.initState ⟨false, true, none, some ("general")⟩).2
        = (some ("general") : Option String).isSome
    ∧ (Meetup.initState ⟨false, true, none, some ("general")⟩).1
        = ⟨false, none, JSVal.undef⟩
    ∧ (Meetup.checkForAndAnnounceNewMeetups (Except.ok [evT1000, evT2000])
        ⟨false, none, JSVal.undef⟩).messages = []
    ∧ (Meetup.checkForAndAnnounceNewMeetups (Except.ok [evT1000, evT2000])
        ⟨false, none, JSVal.undef⟩).state = ⟨false, none, JSVal.undef⟩
    ∧ (Meetup.cmdShowUpcoming (Except.ok [evT1000, evT2000])
        ⟨false, none, JSVal.undef⟩).1
        = (getUpcomingMeetups [evT1000, evT2000]).map formatMessage
    ∧ (Meetup.cmdShowUpcoming (Except.ok [evT1000, evT2000])
        ⟨false, none, JSVal.undef⟩).2 = ⟨false, none, JSVal.undef⟩ :=
  c5_amended_degraded_mode false true none (some ("general")) [evT1000, evT2000] rfl

/-- C6 counterexample: at the epoch of 2024-01-01T19:00:00-08:00 the When
field of the formatted message reads `7:0pm` — the moment format `'h:ma'`
leaves minutes unpadded — not `7:00pm` as the claim states. -/
theorem c6_counterexample :
    messageFieldValue ("When") (formatMessage evJan) = some ("7:0pm")
    ∧ ("7:0pm" : String) ≠ "7:00pm" := by
  exact ⟨rfl, by decide⟩

/-- C6 (amended): formatting an event and reading the message back recovers
the event's name as the text, its link as the footer, the Where string, and a
When string equal to the epoch time shifted to America/Vancouver and rendered
with format `'h:ma'` (hour 1-12, unpadded minutes, am/pm) — so the cited
epoch renders as `7:0pm`, not `7:00pm`. -/
theorem c6_amended_format_roundtrip :
    (∀ ev : Event,
      (formatMessage ev).text = ev.name
      ∧ messageFooter (formatMessage ev) = some ev.link
      ∧ messageFieldValue ("Where") (formatMessage ev) = some (whereValue ev.venue)
      ∧ messageFieldValue ("When") (formatMessage ev) = some (whenValue ev.time))
    ∧ whenValue 1704164400000 = "7:0pm" := by
  exact ⟨fun ev => ⟨rfl, rfl, rfl, rfl⟩, rfl⟩

/-- C7 counterexample: the registered pattern is `/show upcoming meetups/i`,
so a message saying `show upcoming events` does not fire the command, while
`show upcoming meetups` does. -/
theorem c7_counterexample :
    respondMatches ("show upcoming events") = false
    ∧ respondMatches ("show upcoming meetups") = true := by decide

/-- C7 (amended): the on-demand command fires exactly on inbound messages
directed at the bot that contain, case-insensitively, the phrase
`show upcoming meetups` (the pattern is unanchored, so surrounding text is
allowed), and on no message lacking that phrase — in particular not on
`show upcoming events`. -/
theorem c7_amended_trigger_pattern :
    (∀ s : String, respondMatches s = true
        ↔ ∃ pre post, pre ++ meetupCommandChars ++ post = lowerChars s)
    ∧ respondMatches ("show upcoming meetups") = true
    ∧ respondMatches ("Please SHOW Upcoming Meetups now") = true
    ∧ respondMatches ("show upcoming events") = false := by
  exact ⟨fun s => listContains_iff _ _, by decide, by decide, by decide⟩

/-- C8 counterexample: on a transport error the scheduled cycle emits no log
line at all (the promise rejection is unhandled — there is no catch handler
and no logger call), contradicting the claim that the error is logged. -/
theorem c8_counterexample :
    (Meetup.checkForAndAnnounceNewMeetups (Except.error ("connect ECONNREFUSED"))
        ⟨true, some 1000, JSVal.num 1000⟩).logs = [] := rfl

/-- C8 (amended): when the fetch of a scheduled cycle fails, the cycle aborts
with no outbound messages, no log output and no state change — the rejection
is silently unhandled, not logged — and the following timer ticks proceed
exactly as if the failed cycle had not happened. -/
theorem c8_amended_fetch_error_silent_abort (err : String) (s : State)
    (rest : List (Except String (List Event))) :
    Meetup.checkForAndAnnounceNewMeetups (Except.error err) s
        = { messages := [], logs := [], state := s }
    ∧ (Meetup.runCycles (Except.error err :: rest) s).2 = (Meetup.runCycles rest s).2
    ∧ (Meetup.runCycles (Except.error err :: rest) s).1
        = [] :: (Meetup.runCycles rest s).1 := by
  exact ⟨rfl, rfl, rfl⟩

theorem meetup_step_monotone (f : Except String (List Event)) (s : State)
    (hinv : s.redis = true → storeVal s = laNum s) :
    laNum s ≤ laNum (Meetup.checkForAndAnnounceNewMeetups f s).state
    ∧ storeVal s ≤ storeVal (Meetup.checkForAndAnnounceNewMeetups f s).state
    ∧ ((Meetup.checkForAndAnnounceNewMeetups f s).state.redis = true →
        storeVal (Meetup.checkForAndAnnounceNewMeetups f s).state
          = laNum (Meetup.checkForAndAnnounceNewMeetups f s).state)
    ∧ (Meetup.checkForAndAnnounceNewMeetups f s).state.redis = s.redis := by
  cases f with
  | error e => exact ⟨le_refl _, le_refl _, hinv, rfl⟩
  | ok parsed =>
    cases hu : (getUpcomingMeetups parsed).filter (fun ev => jsGtTime ev.time s.lastAnnounced) with
    | nil =>
      rw [meetup_cycle_ok_state_nil s parsed hu]
      exact ⟨le_refl _, le_refl _, hinv, rfl⟩
    | cons a l =>
      rw [meetup_cycle_ok_state_cons s parsed a l hu]
      rcases exists_getLast_of_ne_nil (l := a :: l) (by simp) with ⟨last, hl⟩
      have hmem : last ∈ (getUpcomingMeetups parsed).filter
          (fun ev => jsGtTime ev.time s.lastAnnounced) := by
        rw [hu]
        exact mem_of_getLastSome hl
      have hgt : jsGtTime last.time s.lastAnnounced = true := (List.mem_filter.1 hmem).2
      cases hr : s.redis with
      | false =>
        rw [announceEvents_snd_noredis _ _ hr]
        exact ⟨le_refl _, le_refl _, hinv, hr⟩
      | true =>
        rw [announceEvents_snd_some _ _ last hr hl]
        cases hla : s.lastAnnounced with
        | undef =>
          rw [hla] at hgt
          simp [jsGtTime] at hgt
        | obj x =>
          rw [hla] at hgt
          simp [jsGtTime] at hgt
        | num w =>
          rw [hla] at hgt
          have hw : w < last.time := by simpa [jsGtTime] using hgt
          have h1 : laNum s = w := by simp [laNum, hla]
          have h2 : storeVal s = w := by rw [hinv hr, h1]
          refine ⟨?_, ?_, ?_, hr⟩
          · rw [h1]
            simp only [laNum]
            exact le_of_lt hw
          · rw [h2]
            simp only [storeVal, Option.getD_some]
            exact le_of_lt hw
          · intro _
            simp [storeVal, laNum]

theorem statesTrace_shape (rest : List (Except String (List Event))) (s : State) :
    Meetup.statesTrace rest s = s :: (Meetup.statesTrace rest s).tail := by
  cases rest <;> rfl

theorem meetup_trace_monotone :
    ∀ (fetches : List (Except String (List Event))) (s : State),
    (s.redis = true → storeVal s = laNum s) →
    List.Chain' (fun a b : State => laNum a ≤ laNum b ∧ storeVal a ≤ storeVal b)
      (Meetup.statesTrace fetches s) := by
  intro fetches
  induction fetches with
  | nil =>
    intro s _
    simp [Meetup.statesTrace]
  | cons f rest ih =>
    intro s hinv
    have hstep := meetup_step_monotone f s hinv
    have h1 : Meetup.statesTrace (f :: rest) s
        = s :: Meetup.statesTrace rest (Meetup.checkForAndAnnounceNewMeetups f s).state := rfl
    rw [h1, statesTrace_shape rest _, List.chain'_cons]
    constructor
    · exact ⟨hstep.1, hstep.2.1⟩
    · rw [← statesTrace_shape rest _]
      exact ih _ hstep.2.2.1

/-- C9: starting from any initialized `part_000` instance, the in-memory and
persisted watermark values are monotonically non-decreasing along every
sequence of scheduled cycles (here even without assuming the fetches sorted,
since the adapter sorts).  The `meetup.js` variant violates the invariant:
in the reachable state with watermark 100, a cycle whose raw fetch is
`[E50]` rewrites the persisted watermark down to 50. -/
theorem c9_watermark_monotone_and_js_decrease :
    (∀ (env : Meetup.Env) (fetches : List (Except String (List Event))),
      List.Chain' (fun a b : State => laNum a ≤ laNum b ∧ storeVal a ≤ storeVal b)
        (Meetup.statesTrace fetches (Meetup.initState env).1))
    ∧ (storeVal (⟨true, some 100, JSVal.num 100⟩ : State) = 100
       ∧ storeVal (MeetupJs.checkForAndAnnounceNewMeetups (Except.ok [evT50])
            ⟨true, some 100, JSVal.num 100⟩).state = 50) := by
  constructor
  · intro env fetches
    apply meetup_trace_monotone
    intro hr
    simp only [Meetup.initState] at hr ⊢
    simp [storeVal, laNum, hr]
  · exact ⟨rfl, rfl⟩

theorem js_cycle_state_noredis (events : List Event) (s : State)
    (hr : s.redis = false) :
    (MeetupJs.checkForAndAnnounceNewMeetups (Except.ok events) s).state = s := by
  cases events with
  | nil => rfl
  | cons a as =>
    rcases exists_getLast_of_ne_nil (l := a :: as) (by simp) with ⟨last, hl⟩
    simp only [MeetupJs.checkForAndAnnounceNewMeetups, hl, hr]
    simp

theorem js_cycle_obj_silent (f : Except String (List Event)) (s : State) (e : Event)
    (h : s.lastAnnounced = JSVal.obj e) :
    (MeetupJs.checkForAndAnnounceNewMeetups f s).messages = []
    ∧ ∃ x, (MeetupJs.checkForAndAnnounceNewMeetups f s).state.lastAnnounced
        = JSVal.obj x := by
  cases f with
  | error err => exact ⟨rfl, e, h⟩
  | ok events =>
    cases events with
    | nil => exact ⟨rfl, e, h⟩
    | cons a as =>
      rcases exists_getLast_of_ne_nil (l := a :: as) (by simp) with ⟨last, hl⟩
      constructor
      · rw [js_cycle_ok_messages, h, filter_jsGt_obj]
        rfl
      · cases hr : s.redis with
        | true =>
          refine ⟨last, ?_⟩
          rw [js_cycle_ok_state_some _ _ last hr hl]
        | false =>
          refine ⟨e, ?_⟩
          rw [js_cycle_state_noredis _ _ hr]
          exact h

theorem js_run_all_empty :
    ∀ (fetches : List (Except String (List Event))) (s : State) (e : Event),
    s.lastAnnounced = JSVal.obj e →
    ((MeetupJs.runCycles fetches s).1.all (fun ms => ms.isEmpty)) = true := by
  intro fetches
  induction fetches with
  | nil =>
    intro s e _
    rfl
  | cons f rest ih =>
    intro s e h
    rcases js_cycle_obj_silent f s e h with ⟨hmsg, x, hx⟩
    have h1 : (MeetupJs.runCycles (f :: rest) s).1
        = (MeetupJs.checkForAndAnnounceNewMeetups f s).messages
            :: (MeetupJs.runCycles rest
                  (MeetupJs.checkForAndAnnounceNewMeetups f s).state).1 := rfl
    rw [h1, List.all_cons, hmsg]
    simp only [List.isEmpty_nil, Bool.true_and]
    exact ih _ x hx

/-- C10: after any successful `meetup.js` scheduled cycle with a redis client
and a non-empty raw fetch, `lastAnnounced` holds the last event object itself
(not its time); the comparison `ev.time > lastAnnounced` is then false for
every event, so every batch of messages sent by every subsequent scheduled
cycle of the same process is empty. -/
theorem c10_js_lastAnnounced_object_blocks_all (store : Option Int) (la : JSVal)
    (front : List Event) (last : Event)
    (fetches : List (Except String (List Event))) :
    (MeetupJs.checkForAndAnnounceNewMeetups (Except.ok (front ++ [last]))
        ⟨true, store, la⟩).state.lastAnnounced = JSVal.obj last
    ∧ (∀ t : Int, jsGtTime t (JSVal.obj last) = false)
    ∧ ((MeetupJs.runCycles fetches
          (MeetupJs.checkForAndAnnounceNewMeetups (Except.ok (front ++ [last]))
            ⟨true, store, la⟩).state).1.all (fun ms => ms.isEmpty)) = true := by
  have hobj : (MeetupJs.checkForAndAnnounceNewMeetups (Except.ok (front ++ [last]))
      ⟨true, store, la⟩).state.lastAnnounced = JSVal.obj last := by
    rw [js_cycle_ok_state_some _ _ last rfl (getLast?_append_singleton front last)]
  exact ⟨hobj, fun t => rfl, js_run_all_empty fetches _ last hobj⟩
